import Mathlib

/-!
Verification of the coin-collector multiplayer game (server.py / client.py).

The server state and its operations are embedded shallowly: scores and coin
ids are naturals, the player and coin dictionaries become lists in insertion
order (Python dicts iterate in insertion order), and the sources of
randomness (spawn positions, spawn counts) become explicit parameters,
constrained in the step relation by the ranges the code draws them from.
Positions and velocities are integers: every position in the source
originates from an integer random.randint draw and evolves by adding
velocity times the integer speed constant 5, the movement intents of the
protocol are the integers -1, 0, 1 per axis, and all clamp bounds and the
collision threshold (PLAYER_SIZE / 2 = 15, 585, 385, 25) are exactly
integer-valued, so on the protocol's input domain the source's float
arithmetic is exact integer arithmetic.  The collision test of the source
computes a square root and compares the Euclidean distance with the
threshold 25; here it is embedded as the equivalent decidable comparison of
the squared distance with 625, and the bridge lemma `collide_iff_dist`
relates it to the source's formula.  The client-side interpolation state
(client.py) is embedded over the rationals, since its smoothing factor is
0.3.
-/

namespace CoinCollector

/-- Game constant from server.py: arena width. -/
def SCREEN_WIDTH : ℤ := 600

/-- Game constant from server.py: arena height. -/
def SCREEN_HEIGHT : ℤ := 400

/-- Game constant from server.py: player hit-box size. -/
def PLAYER_SIZE : ℤ := 30

/-- Game constant from server.py: coin hit-box size. -/
def COIN_SIZE : ℤ := 20

/-- Game constant from server.py: per-tick speed multiplier. -/
def PLAYER_SPEED : ℤ := 5

/-- Game constant from server.py: minimum initial coin count. -/
def MIN_COINS : ℕ := 3

/-- Game constant from server.py: maximum coin count. -/
def MAX_COINS : ℕ := 5

/-- Game constant from server.py: collision threshold, sum of half-sizes. -/
def COLLISION_DISTANCE : ℤ := (PLAYER_SIZE + COIN_SIZE) / 2

/-- Game constant from server.py: sprint-mode win threshold. -/
def SPRINT_WIN_SCORE : ℕ := 10

/-- A JSON-like value, used to embed the wire messages built by the code. -/
inductive JVal where
  | jstr : String → JVal
  | jnum : ℤ → JVal
  | jarr : List JVal → JVal
  | jobj : List (String × JVal) → JVal

/-- A connected player, mirroring class Player of server.py (the websocket
handle is dropped; it carries no game state). -/
structure Player where
  id : String
  name : String
  x : ℤ
  y : ℤ
  score : ℕ
  color : List ℕ
  velocity_x : ℤ
  velocity_y : ℤ
deriving DecidableEq

/-- Player.update_position of server.py: advance by velocity times speed,
then clamp each axis to the arena minus half the hit-box. -/
def Player.update_position (p : Player) : Player :=
  { p with
    x := max (PLAYER_SIZE / 2) (min (SCREEN_WIDTH - PLAYER_SIZE / 2) (p.x + p.velocity_x * PLAYER_SPEED)),
    y := max (PLAYER_SIZE / 2) (min (SCREEN_HEIGHT - PLAYER_SIZE / 2) (p.y + p.velocity_y * PLAYER_SPEED)) }

/-- Player.to_dict of server.py. -/
def Player.to_dict (p : Player) : List (String × JVal) :=
  [("id", .jstr p.id), ("name", .jstr p.name), ("x", .jnum p.x), ("y", .jnum p.y),
   ("score", .jnum p.score), ("color", .jarr (p.color.map fun n => .jnum n))]

/-- A coin, mirroring class Coin of server.py. -/
structure Coin where
  id : ℕ
  x : ℤ
  y : ℤ
deriving DecidableEq

/-- Coin.to_dict of server.py. -/
def Coin.to_dict (c : Coin) : List (String × JVal) :=
  [("id", .jnum c.id), ("x", .jnum c.x), ("y", .jnum c.y)]

/-- The mutable session state of class GameServer in server.py.  Dicts become
lists in insertion order. -/
structure GameServer where
  players : List Player
  coins : List Coin
  next_coin_id : ℕ
  game_started : Bool
  game_mode : String
  winner : Option String
  player_count : ℕ
deriving DecidableEq

/-- GameServer.__init__ of server.py. -/
def GameServer.initial : GameServer :=
  { players := [], coins := [], next_coin_id := 0, game_started := false,
    game_mode := "endless", winner := none, player_count := 0 }

/-- Squared distance between a player and a coin. -/
def dist2 (p : Player) (c : Coin) : ℤ :=
  (p.x - c.x) * (p.x - c.x) + (p.y - c.y) * (p.y - c.y)

/-- The collision test of GameServer.check_collisions: the source compares
the Euclidean distance with COLLISION_DISTANCE; this is the equivalent
decidable comparison of the squared distance (see `collide_iff_dist`). -/
def collide (p : Player) (c : Coin) : Bool :=
  decide (dist2 p c < COLLISION_DISTANCE * COLLISION_DISTANCE)

/-- The Euclidean distance the source computes: (dx*dx + dy*dy) ** 0.5. -/
noncomputable def euclidDist (p : Player) (c : Coin) : ℝ :=
  Real.sqrt ((dist2 p c : ℤ) : ℝ)

/-- player.score += 1 on the (unique, in reachable states) player with the
given id: increment the score of the first list entry with that id. -/
def bump : List Player → String → List Player
  | [], _ => []
  | p :: ps, pid =>
    if p.id = pid then { p with score := p.score + 1 } :: ps
    else p :: bump ps pid

/-- One pickup event of a collision pass: the claimed coin, the claiming
player, and that player's score right after the increment. -/
structure Pickup where
  coinId : ℕ
  pid : String
  newScore : ℕ
deriving DecidableEq

/-- The pickup trace of a collision pass: for each coin in iteration order,
the first colliding player (if any) claims it and its score is incremented. -/
def pickups (ps : List Player) : List Coin → List Pickup
  | [] => []
  | c :: cs =>
    match ps.find? (fun p => collide p c) with
    | none => pickups ps cs
    | some p => ⟨c.id, p.id, p.score + 1⟩ :: pickups (bump ps p.id) cs

/-- Result of the scanning loop of GameServer.check_collisions. -/
structure PassResult where
  players : List Player
  winner : Option String
  removed : List ℕ
deriving DecidableEq

/-- The nested loop of GameServer.check_collisions: for each coin in
iteration order, the first colliding player claims it (the break leaves only
the inner player loop), its score is incremented, the coin id is marked for
removal, and — when the mode is sprint and the new score reaches the
threshold — the winner is overwritten with that player's id. -/
def runPass (mode : String) (ps : List Player) (w : Option String) : List Coin → PassResult
  | [] => ⟨ps, w, []⟩
  | c :: cs =>
    match ps.find? (fun p => collide p c) with
    | none => runPass mode ps w cs
    | some p =>
      let w' := if mode = "sprint" ∧ SPRINT_WIN_SCORE ≤ p.score + 1 then some p.id else w
      let r := runPass mode (bump ps p.id) w' cs
      ⟨r.players, r.winner, c.id :: r.removed⟩

/-- GameServer.check_collisions of server.py: run the scanning loop, then
delete every marked coin id from the coin set. -/
def GameServer.check_collisions (s : GameServer) : GameServer :=
  let r := runPass s.game_mode s.players s.winner s.coins
  { s with players := r.players, winner := r.winner,
           coins := s.coins.filter fun c => decide (c.id ∉ r.removed) }

/-- GameServer.spawn_coin of server.py: the new coin takes the current
next_coin_id (its position is the explicit randomness parameter), and the
counter is incremented. -/
def GameServer.spawn_coin (s : GameServer) (x y : ℤ) : GameServer :=
  { s with coins := s.coins ++ [⟨s.next_coin_id, x, y⟩],
           next_coin_id := s.next_coin_id + 1 }

/-- The initial-coin loop of GameServer.start_game: one spawn per drawn
position. -/
def spawnAll (s : GameServer) : List (ℤ × ℤ) → GameServer
  | [] => s
  | q :: qs => spawnAll (s.spawn_coin q.1 q.2) qs

/-- GameServer.start_game of server.py: record the mode, set the started
flag, clear the winner, and spawn the initial coins (the drawn count is the
length of the position list). -/
def GameServer.start_game (s : GameServer) (mode : String) (posns : List (ℤ × ℤ)) : GameServer :=
  spawnAll { s with game_mode := mode, game_started := true, winner := none } posns

/-- The start_game branch of GameServer.handle_message: honored only when
the game has not started and at least two players are connected; the mode
field is read with default "endless" and is not validated. -/
def GameServer.handle_start_game (s : GameServer) (mode : Option String)
    (posns : List (ℤ × ℤ)) : GameServer :=
  if s.game_started = false ∧ 2 ≤ s.players.length then
    s.start_game (mode.getD "endless") posns
  else s

/-- The input branch of GameServer.handle_message: replace the sending
player's velocity. -/
def GameServer.handle_input (s : GameServer) (pid : String) (dx dy : ℤ) : GameServer :=
  { s with players := s.players.map fun p =>
      if p.id = pid then { p with velocity_x := dx, velocity_y := dy } else p }

/-- The join part of GameServer.handle_client: the first joiner gets the
name Alice and red, every later joiner the name Bob and blue; the player is
added unconditionally and the welcome message is built for it.  The random
spawn position is the explicit (x, y) parameter. -/
def GameServer.handle_client (s : GameServer) (pid : String) (x y : ℤ) :
    GameServer × List (String × JVal) :=
  let name := if s.player_count = 0 then "Alice" else "Bob"
  let color := if s.player_count = 0 then [255, 100, 100] else [100, 100, 255]
  let player : Player := ⟨pid, name, x, y, 0, color, 0, 0⟩
  ({ s with player_count := s.player_count + 1, players := s.players ++ [player] },
   [("type", .jstr "welcome"), ("player_id", .jstr pid),
    ("player_data", .jobj player.to_dict)])

/-- The disconnect cleanup of GameServer.handle_client. -/
def GameServer.disconnect (s : GameServer) (pid : String) : GameServer :=
  if s.players.any fun p => p.id = pid then
    { s with players := s.players.filter fun p => decide (p.id ≠ pid),
             player_count := s.player_count - 1 }
  else s

/-- The spawn block of GameServer.game_loop: while the coin count is below
MAX_COINS, spawn one coin per drawn position (the drawn count is the length
of the list). -/
def spawnTick (s : GameServer) : List (ℤ × ℤ) → GameServer
  | [] => s
  | q :: qs =>
    if s.coins.length < MAX_COINS then spawnTick (s.spawn_coin q.1 q.2) qs
    else s

/-- The game-over reset of GameServer.game_loop (lines 283-288): unset the
started flag, clear the winner, clear the coins, zero every score. -/
def GameServer.reset_game (s : GameServer) : GameServer :=
  { s with game_started := false, winner := none, coins := [],
           players := s.players.map fun p => { p with score := 0 } }

/-- One tick of GameServer.game_loop before the game-over check: update all
positions, check collisions, and spawn coins when the spawn interval has
elapsed (the flag spawnDue). -/
def GameServer.tick_mid (s : GameServer) (spawnDue : Bool) (posns : List (ℤ × ℤ)) : GameServer :=
  let s1 := { s with players := s.players.map Player.update_position }
  let s2 := s1.check_collisions
  if spawnDue then spawnTick s2 posns else s2

/-- One full tick of GameServer.game_loop: when the game has not started the
tick does nothing; otherwise run the simulation and, if a winner was set,
apply the game-over reset. -/
def GameServer.tick (s : GameServer) (spawnDue : Bool) (posns : List (ℤ × ℤ)) : GameServer :=
  if s.game_started then
    let m := s.tick_mid spawnDue posns
    if m.winner.isSome then m.reset_game else m
  else s

/-- The events that mutate the session state, with every source of
randomness made explicit and constrained to the range the code draws it
from: join positions come from randint(PLAYER_SIZE, dim - PLAYER_SIZE),
coin positions from randint(COIN_SIZE, dim - COIN_SIZE), the initial spawn
count from randint(MIN_COINS, MAX_COINS), and the per-tick spawn count from
randint(1, 2).  Fresh connections carry distinct ids. -/
inductive Step : GameServer → GameServer → Prop
  | connect (s : GameServer) (pid : String) (x y : ℤ) :
      PLAYER_SIZE ≤ x → x ≤ SCREEN_WIDTH - PLAYER_SIZE →
      PLAYER_SIZE ≤ y → y ≤ SCREEN_HEIGHT - PLAYER_SIZE →
      (∀ p ∈ s.players, p.id ≠ pid) →
      Step s (s.handle_client pid x y).1
  | disconnect (s : GameServer) (pid : String) :
      Step s (s.disconnect pid)
  | input (s : GameServer) (pid : String) (dx dy : ℤ) :
      Step s (s.handle_input pid dx dy)
  | startMsg (s : GameServer) (mode : Option String) (posns : List (ℤ × ℤ)) :
      MIN_COINS ≤ posns.length → posns.length ≤ MAX_COINS →
      (∀ q ∈ posns, COIN_SIZE ≤ q.1 ∧ q.1 ≤ SCREEN_WIDTH - COIN_SIZE ∧
        COIN_SIZE ≤ q.2 ∧ q.2 ≤ SCREEN_HEIGHT - COIN_SIZE) →
      Step s (s.handle_start_game mode posns)
  | tickStep (s : GameServer) (spawnDue : Bool) (posns : List (ℤ × ℤ)) :
      1 ≤ posns.length → posns.length ≤ 2 →
      (∀ q ∈ posns, COIN_SIZE ≤ q.1 ∧ q.1 ≤ SCREEN_WIDTH - COIN_SIZE ∧
        COIN_SIZE ≤ q.2 ∧ q.2 ≤ SCREEN_HEIGHT - COIN_SIZE) →
      Step s (s.tick spawnDue posns)

/-- A session state is reachable when a sequence of events leads to it from
the freshly constructed server. -/
def Reachable (s : GameServer) : Prop :=
  Relation.ReflTransGen Step GameServer.initial s

/-- Client-side entity of client.py with position interpolation for smooth
rendering (class InterpolatedEntity); positions are rationals since the
smoothing factor is 0.3. -/
structure InterpolatedEntity where
  id : String
  name : String
  server_x : ℚ
  server_y : ℚ
  display_x : ℚ
  display_y : ℚ
  target_x : ℚ
  target_y : ℚ
  score : ℕ
  color : List ℕ
deriving DecidableEq

/-- InterpolatedEntity.interpolate of client.py: move the display position
towards the target by the fraction alpha, independently per axis. -/
def InterpolatedEntity.interpolate (e : InterpolatedEntity) (alpha : ℚ) : InterpolatedEntity :=
  { e with display_x := e.display_x + (e.target_x - e.display_x) * alpha,
           display_y := e.display_y + (e.target_y - e.display_y) * alpha }

/-- Squared distance between the display position and the target position of
a client entity. -/
def entDist2 (e : InterpolatedEntity) : ℚ :=
  (e.target_x - e.display_x) * (e.target_x - e.display_x) +
    (e.target_y - e.display_y) * (e.target_y - e.display_y)

/-- Euclidean distance between the display position and the target position
of a client entity (the source computes it with ** 0.5). -/
noncomputable def entDist (e : InterpolatedEntity) : ℝ :=
  Real.sqrt ((entDist2 e : ℚ) : ℝ)

/-- Concrete session: the first client "a" joins at (100, 100). -/
def s1 : GameServer := (GameServer.initial.handle_client "a" 100 100).1

/-- Concrete session: the second client "b" joins at (300, 300). -/
def s2 : GameServer := (s1.handle_client "b" 300 300).1

/-- Concrete session: a third client "c" joins while two players are already
connected. -/
def sThree : GameServer := (s2.handle_client "c" 100 100).1

/-- Initial spawn positions for the concrete sprint game: two coins on each
player. -/
def posns4 : List (ℤ × ℤ) := [(100, 100), (100, 100), (300, 300), (300, 300)]

/-- Per-tick spawn positions for the concrete sprint game: one coin on player
"b" first, then one on player "a". -/
def posns2 : List (ℤ × ℤ) := [(300, 300), (100, 100)]

/-- Admissible spawn positions for a three-coin initial set. -/
def posns3 : List (ℤ × ℤ) := [(100, 100), (200, 200), (300, 300)]

/-- Concrete session: sprint game started with four coins. -/
def sG : GameServer := s2.handle_start_game (some "sprint") posns4

/-- Concrete session after one tick: both scores 2, two fresh coins. -/
def sT1 : GameServer := sG.tick true posns2

/-- Concrete session after two ticks: both scores 3. -/
def sT2 : GameServer := sT1.tick true posns2

/-- Concrete session after three ticks: both scores 4. -/
def sT3 : GameServer := sT2.tick true posns2

/-- Concrete session after four ticks: both scores 5. -/
def sT4 : GameServer := sT3.tick true posns2

/-- Concrete session after five ticks: both scores 6. -/
def sT5 : GameServer := sT4.tick true posns2

/-- Concrete session after six ticks: both scores 7. -/
def sT6 : GameServer := sT5.tick true posns2

/-- Concrete session after seven ticks: both scores 8. -/
def sT7 : GameServer := sT6.tick true posns2

/-- Concrete session after eight ticks: both scores 9, the pending coins are
coin 18 on player "b" and coin 19 on player "a", in that iteration order. -/
def sT8 : GameServer := sT7.tick true posns2

/-- A concrete started sprint session in which the next collision pass makes
player "a" reach the win threshold. -/
def sWin : GameServer :=
  { players := [⟨"a", "Alice", 100, 100, 9, [255, 100, 100], 0, 0⟩,
                ⟨"b", "Bob", 300, 300, 4, [100, 100, 255], 0, 0⟩],
    coins := [⟨0, 100, 100⟩], next_coin_id := 1, game_started := true,
    game_mode := "sprint", winner := none, player_count := 2 }

/-- Relation between a player before and after a collision pass: every field
other than the score is unchanged, and the score never decreases. -/
def Shape (p q : Player) : Prop :=
  q.id = p.id ∧ q.name = p.name ∧ q.x = p.x ∧ q.y = p.y ∧ q.color = p.color ∧
    q.velocity_x = p.velocity_x ∧ q.velocity_y = p.velocity_y ∧ p.score ≤ q.score

/-- Session invariant established by all reachable states: positions within
the clamp bounds, coin ids below the freshness counter and strictly
increasing along the coin list, no coins while the game is not started, and
distinct player ids. -/
def Inv (s : GameServer) : Prop :=
  (∀ p ∈ s.players, 15 ≤ p.x ∧ p.x ≤ 585 ∧ 15 ≤ p.y ∧ p.y ≤ 385) ∧
    (∀ c ∈ s.coins, c.id < s.next_coin_id) ∧
    s.coins.Pairwise (fun a b => a.id < b.id) ∧
    (s.game_started = false → s.coins = []) ∧
    (s.players.map Player.id).Nodup

/-- The decidable collision test agrees with the comparison of the source:
Euclidean distance strictly below COLLISION_DISTANCE = 25. -/
lemma collide_iff_dist (p : Player) (c : Coin) :
    collide p c = true ↔ euclidDist p c < 25 := by
  have h1 : COLLISION_DISTANCE * COLLISION_DISTANCE = 625 := by decide
  have h3 : collide p c = true ↔ dist2 p c < 625 := by
    simp [collide, h1]
  have h4 : ((25 : ℝ)) ^ 2 = ((625 : ℤ) : ℝ) := by norm_num
  rw [h3, euclidDist, Real.sqrt_lt' (by norm_num : (0 : ℝ) < 25), h4]
  exact_mod_cast Iff.rfl

/-- Changing only the score of a player does not change the collision test. -/
lemma collide_score (p : Player) (n : ℕ) (c : Coin) :
    collide { p with score := n } c = collide p c := rfl

/-- Bumping a score leaves the per-coin collision scan unchanged. -/
lemma any_collide_bump (ps : List Player) (pid : String) (c : Coin) :
    ((bump ps pid).any fun p => collide p c) = ps.any fun p => collide p c := by
  induction ps with
  | nil => rfl
  | cons p t ih =>
    by_cases h : p.id = pid
    · have hb : bump (p :: t) pid = { p with score := p.score + 1 } :: t := by
        simp [bump, h]
      rw [hb]
      rfl
    · have hb : bump (p :: t) pid = p :: bump t pid := by
        simp [bump, h]
      rw [hb, List.any_cons, List.any_cons, ih]

lemma shape_rfl (p : Player) : Shape p p :=
  ⟨rfl, rfl, rfl, rfl, rfl, rfl, rfl, le_rfl⟩

lemma shape_trans {p q r : Player} (h1 : Shape p q) (h2 : Shape q r) : Shape p r := by
  obtain ⟨a1, b1, c1, d1, e1, f1, g1, i1⟩ := h1
  obtain ⟨a2, b2, c2, d2, e2, f2, g2, i2⟩ := h2
  exact ⟨a2.trans a1, b2.trans b1, c2.trans c1, d2.trans d1, e2.trans e1,
    f2.trans f1, g2.trans g1, i1.trans i2⟩

lemma forall₂_trans_of {α : Type _} {R S T : α → α → Prop}
    (h : ∀ a b d, R a b → S b d → T a d) :
    ∀ {l₁ l₂ l₃ : List α}, List.Forall₂ R l₁ l₂ → List.Forall₂ S l₂ l₃ →
      List.Forall₂ T l₁ l₃ := by
  intro l₁ l₂ l₃ h₁
  induction h₁ generalizing l₃ with
  | nil => intro h₂; cases h₂; exact List.Forall₂.nil
  | cons hab hrest ih =>
    intro h₂
    cases h₂ with
    | cons hbc hrest2 => exact List.Forall₂.cons (h _ _ _ hab hbc) (ih hrest2)

lemma forall₂_mem_right {α : Type _} {R : α → α → Prop} :
    ∀ {l₁ l₂ : List α}, List.Forall₂ R l₁ l₂ → ∀ {q}, q ∈ l₂ → ∃ p ∈ l₁, R p q := by
  intro l₁ l₂ h
  induction h with
  | nil => intro q hq; cases hq
  | cons hab _ ih =>
    intro q hq
    rcases List.mem_cons.mp hq with rfl | hq'
    · exact ⟨_, List.mem_cons_self _ _, hab⟩
    · obtain ⟨p, hp, hr⟩ := ih hq'
      exact ⟨p, List.mem_cons_of_mem _ hp, hr⟩

lemma forall₂_mem_left {α : Type _} {R : α → α → Prop} :
    ∀ {l₁ l₂ : List α}, List.Forall₂ R l₁ l₂ → ∀ {p}, p ∈ l₁ → ∃ q ∈ l₂, R p q := by
  intro l₁ l₂ h
  induction h with
  | nil => intro p hp; cases hp
  | cons hab _ ih =>
    intro p hp
    rcases List.mem_cons.mp hp with rfl | hp'
    · exact ⟨_, List.mem_cons_self _ _, hab⟩
    · obtain ⟨q, hq, hr⟩ := ih hp'
      exact ⟨q, List.mem_cons_of_mem _ hq, hr⟩

lemma forall₂_shape_trans {l₁ l₂ l₃ : List Player} (h1 : List.Forall₂ Shape l₁ l₂)
    (h2 : List.Forall₂ Shape l₂ l₃) : List.Forall₂ Shape l₁ l₃ :=
  forall₂_trans_of (fun a b d (x : Shape a b) (y : Shape b d) => shape_trans x y) h1 h2

lemma forall₂_shape_map_id {ps qs : List Player} (h : List.Forall₂ Shape ps qs) :
    qs.map Player.id = ps.map Player.id := by
  induction h with
  | nil => rfl
  | cons hab _ ih => simp [ih, hab.1]

lemma bump_shape (ps : List Player) (pid : String) :
    List.Forall₂ Shape ps (bump ps pid) := by
  induction ps with
  | nil => exact List.Forall₂.nil
  | cons p t ih =>
    by_cases h : p.id = pid
    · simp only [bump, if_pos h]
      exact List.Forall₂.cons ⟨rfl, rfl, rfl, rfl, rfl, rfl, rfl, Nat.le_succ _⟩
        (List.forall₂_same.mpr fun x _ => shape_rfl x)
    · simp only [bump, if_neg h]
      exact List.Forall₂.cons (shape_rfl p) ih

lemma bump_map_id (ps : List Player) (pid : String) :
    (bump ps pid).map Player.id = ps.map Player.id :=
  forall₂_shape_map_id (bump_shape ps pid)

lemma runPass_cons_none {mode : String} {ps : List Player} {w : Option String}
    {c : Coin} {cs : List Coin} (h : ps.find? (fun q => collide q c) = none) :
    runPass mode ps w (c :: cs) = runPass mode ps w cs := by
  simp [runPass, h]

lemma runPass_cons_some {mode : String} {ps : List Player} {w : Option String}
    {c : Coin} {cs : List Coin} {p : Player}
    (h : ps.find? (fun q => collide q c) = some p) :
    runPass mode ps w (c :: cs) =
      ⟨(runPass mode (bump ps p.id)
          (if mode = "sprint" ∧ SPRINT_WIN_SCORE ≤ p.score + 1 then some p.id else w) cs).players,
       (runPass mode (bump ps p.id)
          (if mode = "sprint" ∧ SPRINT_WIN_SCORE ≤ p.score + 1 then some p.id else w) cs).winner,
       c.id :: (runPass mode (bump ps p.id)
          (if mode = "sprint" ∧ SPRINT_WIN_SCORE ≤ p.score + 1 then some p.id else w) cs).removed⟩ := by
  simp [runPass, h]

lemma pickups_cons_none {ps : List Player} {c : Coin} {cs : List Coin}
    (h : ps.find? (fun q => collide q c) = none) :
    pickups ps (c :: cs) = pickups ps cs := by
  simp [pickups, h]

lemma pickups_cons_some {ps : List Player} {c : Coin} {cs : List Coin} {p : Player}
    (h : ps.find? (fun q => collide q c) = some p) :
    pickups ps (c :: cs) = ⟨c.id, p.id, p.score + 1⟩ :: pickups (bump ps p.id) cs := by
  simp [pickups, h]

lemma runPass_shape (mode : String) :
    ∀ (coins : List Coin) (ps : List Player) (w : Option String),
      List.Forall₂ Shape ps (runPass mode ps w coins).players := by
  intro coins
  induction coins with
  | nil => intro ps w; exact List.forall₂_same.mpr fun x _ => shape_rfl x
  | cons c cs ih =>
    intro ps w
    cases h : ps.find? (fun q => collide q c) with
    | none => rw [runPass_cons_none h]; exact ih ps w
    | some p =>
      rw [runPass_cons_some h]
      exact forall₂_shape_trans (bump_shape ps p.id) (ih (bump ps p.id) _)

lemma runPass_removed (mode : String) :
    ∀ (coins : List Coin) (ps : List Player) (w : Option String),
      (runPass mode ps w coins).removed =
        (coins.filter fun c => ps.any fun p => collide p c).map Coin.id := by
  intro coins
  induction coins with
  | nil => intro ps w; rfl
  | cons c cs ih =>
    intro ps w
    cases h : ps.find? (fun q => collide q c) with
    | none =>
      have hany : (ps.any fun p => collide p c) = false := by
        rw [Bool.eq_false_iff]
        intro hc
        obtain ⟨p, hp, hcol⟩ := List.any_eq_true.mp hc
        exact absurd hcol (by simpa using List.find?_eq_none.mp h p hp)
      rw [runPass_cons_none h, List.filter_cons, hany]
      simpa using ih ps w
    | some p =>
      have hcol : collide p c = true := by simpa using List.find?_some h
      have hany : (ps.any fun p => collide p c) = true :=
        List.any_eq_true.mpr ⟨p, List.mem_of_find?_eq_some h, hcol⟩
      have hcong : (cs.filter fun d => (bump ps p.id).any fun q => collide q d) =
          cs.filter fun d => ps.any fun q => collide q d :=
        List.filter_congr fun d _ => any_collide_bump ps p.id d
      rw [runPass_cons_some h, List.filter_cons, hany]
      simpa [hcong] using ih (bump ps p.id)
        (if mode = "sprint" ∧ SPRINT_WIN_SCORE ≤ p.score + 1 then some p.id else w)

lemma pickups_coinIds :
    ∀ (coins : List Coin) (ps : List Player),
      (pickups ps coins).map Pickup.coinId =
        (coins.filter fun c => ps.any fun p => collide p c).map Coin.id := by
  intro coins
  induction coins with
  | nil => intro ps; rfl
  | cons c cs ih =>
    intro ps
    cases h : ps.find? (fun q => collide q c) with
    | none =>
      have hany : (ps.any fun p => collide p c) = false := by
        rw [Bool.eq_false_iff]
        intro hc
        obtain ⟨p, hp, hcol⟩ := List.any_eq_true.mp hc
        exact absurd hcol (by simpa using List.find?_eq_none.mp h p hp)
      rw [pickups_cons_none h, List.filter_cons, hany]
      simpa using ih ps
    | some p =>
      have hcol : collide p c = true := by simpa using List.find?_some h
      have hany : (ps.any fun p => collide p c) = true :=
        List.any_eq_true.mpr ⟨p, List.mem_of_find?_eq_some h, hcol⟩
      have hcong : (cs.filter fun d => (bump ps p.id).any fun q => collide q d) =
          cs.filter fun d => ps.any fun q => collide q d :=
        List.filter_congr fun d _ => any_collide_bump ps p.id d
      rw [pickups_cons_some h, List.filter_cons, hany]
      simpa [hcong] using ih (bump ps p.id)

lemma runPass_indep :
    ∀ (coins : List Coin) (ps : List Player) (mode mode' : String) (w w' : Option String),
      (runPass mode ps w coins).players = (runPass mode' ps w' coins).players ∧
      (runPass mode ps w coins).removed = (runPass mode' ps w' coins).removed := by
  intro coins
  induction coins with
  | nil => intro ps mode mode' w w'; exact ⟨rfl, rfl⟩
  | cons c cs ih =>
    intro ps mode mode' w w'
    cases h : ps.find? (fun q => collide q c) with
    | none => rw [runPass_cons_none h, runPass_cons_none h]; exact ih ps mode mode' w w'
    | some p =>
      obtain ⟨h1, h2⟩ := ih (bump ps p.id) mode mode'
        (if mode = "sprint" ∧ SPRINT_WIN_SCORE ≤ p.score + 1 then some p.id else w)
        (if mode' = "sprint" ∧ SPRINT_WIN_SCORE ≤ p.score + 1 then some p.id else w')
      rw [runPass_cons_some h, runPass_cons_some h]
      exact ⟨h1, by rw [h2]⟩

lemma runPass_winner_of_ne {mode : String} (hm : mode ≠ "sprint") :
    ∀ (coins : List Coin) (ps : List Player) (w : Option String),
      (runPass mode ps w coins).winner = w := by
  intro coins
  induction coins with
  | nil => intro ps w; rfl
  | cons c cs ih =>
    intro ps w
    cases h : ps.find? (fun q => collide q c) with
    | none => rw [runPass_cons_none h]; exact ih ps w
    | some p =>
      have hcond : ¬ (mode = "sprint" ∧ SPRINT_WIN_SCORE ≤ p.score + 1) := fun hh => hm hh.1
      rw [runPass_cons_some h]
      show (runPass mode (bump ps p.id) _ cs).winner = w
      rw [if_neg hcond]
      exact ih (bump ps p.id) w

lemma bump_mem_nodup {ps : List Player} (hN : (ps.map Player.id).Nodup) {p : Player}
    (hp : p ∈ ps) : { p with score := p.score + 1 } ∈ bump ps p.id := by
  induction ps with
  | nil => cases hp
  | cons q t ih =>
    rw [List.map_cons, List.nodup_cons] at hN
    rcases List.mem_cons.mp hp with rfl | hp'
    · simp only [bump, if_pos rfl]
      exact List.mem_cons_self _ _
    · have hq : q.id ≠ p.id := by
        intro he
        exact hN.1 (he ▸ List.mem_map_of_mem Player.id hp')
      simp only [bump, if_neg hq]
      exact List.mem_cons_of_mem _ (ih hN.2 hp')

lemma runPass_winner_cases (mode : String) :
    ∀ (coins : List Coin) (ps : List Player) (w : Option String),
      (ps.map Player.id).Nodup →
      (runPass mode ps w coins).winner = w ∨
        (mode = "sprint" ∧ ∃ p ∈ (runPass mode ps w coins).players,
          (runPass mode ps w coins).winner = some p.id ∧ SPRINT_WIN_SCORE ≤ p.score) := by
  intro coins
  induction coins with
  | nil => intro ps w _; exact Or.inl rfl
  | cons c cs ih =>
    intro ps w hN
    cases h : ps.find? (fun q => collide q c) with
    | none => rw [runPass_cons_none h]; exact ih ps w hN
    | some p =>
      have hN' : ((bump ps p.id).map Player.id).Nodup := by
        rw [bump_map_id]; exact hN
      rw [runPass_cons_some h]
      by_cases hq : mode = "sprint" ∧ SPRINT_WIN_SCORE ≤ p.score + 1
      · rw [if_pos hq]
        rcases ih (bump ps p.id) (some p.id) hN' with hwin | ⟨hm, q, hmem, hwq, hsq⟩
        · refine Or.inr ⟨hq.1, ?_⟩
          have hpm : { p with score := p.score + 1 } ∈ bump ps p.id :=
            bump_mem_nodup hN (List.mem_of_find?_eq_some h)
          obtain ⟨q, hqmem, hsh⟩ :=
            forall₂_mem_left (runPass_shape mode cs (bump ps p.id) (some p.id)) hpm
          refine ⟨q, hqmem, ?_, ?_⟩
          · rw [hwin, hsh.1]
          · exact le_trans hq.2 hsh.2.2.2.2.2.2.2
        · exact Or.inr ⟨hm, q, hmem, hwq, hsq⟩
      · rw [if_neg hq]
        rcases ih (bump ps p.id) w hN' with hwin | ⟨hm, q, hmem, hwq, hsq⟩
        · exact Or.inl hwin
        · exact Or.inr ⟨hm, q, hmem, hwq, hsq⟩

lemma getLast?_cons_getD {α : Type _} (a : α) (l : List α) :
    (a :: l).getLast? = some (l.getLast?.getD a) := by
  induction l generalizing a with
  | nil => rfl
  | cons b t ih => rw [List.getLast?_cons_cons, ih b]; rfl

lemma runPass_winner_sprint :
    ∀ (coins : List Coin) (ps : List Player) (w : Option String),
      (runPass "sprint" ps w coins).winner =
        (match ((pickups ps coins).filter fun e =>
            decide (SPRINT_WIN_SCORE ≤ e.newScore)).getLast? with
         | some e => some e.pid
         | none => w) := by
  intro coins
  induction coins with
  | nil => intro ps w; rfl
  | cons c cs ih =>
    intro ps w
    cases h : ps.find? (fun q => collide q c) with
    | none => rw [runPass_cons_none h, pickups_cons_none h]; exact ih ps w
    | some p =>
      rw [runPass_cons_some h, pickups_cons_some h]
      show (runPass "sprint" (bump ps p.id)
          (if "sprint" = "sprint" ∧ SPRINT_WIN_SCORE ≤ p.score + 1 then some p.id else w)
          cs).winner = _
      by_cases hs : SPRINT_WIN_SCORE ≤ p.score + 1
      · rw [if_pos ⟨rfl, hs⟩, ih (bump ps p.id) (some p.id)]
        have hd : (fun e => decide (SPRINT_WIN_SCORE ≤ e.newScore))
            (⟨c.id, p.id, p.score + 1⟩ : Pickup) = true := by
          simpa using hs
        rw [List.filter_cons, if_pos hd, getLast?_cons_getD]
        cases hF : ((pickups (bump ps p.id) cs).filter fun e =>
            decide (SPRINT_WIN_SCORE ≤ e.newScore)).getLast? with
        | none => simp [hF]
        | some e => simp [hF]
      · rw [if_neg (fun hh => hs hh.2), ih (bump ps p.id) w]
        have hd : (fun e => decide (SPRINT_WIN_SCORE ≤ e.newScore))
            (⟨c.id, p.id, p.score + 1⟩ : Pickup) = false := by
          simpa using hs
        rw [List.filter_cons, if_neg (by simp [hd])]

lemma collide_congr {p q : Player} (hx : p.x = q.x) (hy : p.y = q.y) (c : Coin) :
    collide p c = collide q c := by
  unfold collide dist2
  rw [hx, hy]

lemma find?_bump_proj (ps : List Player) (pid : String) (c : Coin) :
    ((bump ps pid).find? fun q => collide q c).map (fun q => (q.id, q.x, q.y)) =
      (ps.find? fun q => collide q c).map fun q => (q.id, q.x, q.y) := by
  induction ps with
  | nil => rfl
  | cons p t ih =>
    by_cases h : p.id = pid
    · have hb : bump (p :: t) pid = { p with score := p.score + 1 } :: t := by
        simp [bump, h]
      rw [hb]
      simp only [List.find?]
      have hcc : collide { p with score := p.score + 1 } c = collide p c := rfl
      rw [hcc]
      cases hc : collide p c <;> simp [hc]
    · have hb : bump (p :: t) pid = p :: bump t pid := by
        simp [bump, h]
      rw [hb]
      simp only [List.find?]
      cases hc : collide p c <;> simp [hc, ih]

lemma pickups_claimer :
    ∀ (coins : List Coin) (ps : List Player),
      ∀ e ∈ pickups ps coins, ∃ c ∈ coins, c.id = e.coinId ∧
        ∃ p, (ps.find? fun q => collide q c) = some p ∧ p.id = e.pid ∧ collide p c = true := by
  intro coins
  induction coins with
  | nil => intro ps e he; cases he
  | cons c cs ih =>
    intro ps e he
    cases h : ps.find? (fun q => collide q c) with
    | none =>
      rw [pickups_cons_none h] at he
      obtain ⟨c', hc', hid, p, hp, hpid, hcp⟩ := ih ps e he
      exact ⟨c', List.mem_cons_of_mem _ hc', hid, p, hp, hpid, hcp⟩
    | some p =>
      rw [pickups_cons_some h] at he
      rcases List.mem_cons.mp he with rfl | he'
      · exact ⟨c, List.mem_cons_self _ _, rfl, p, h, rfl, by simpa using List.find?_some h⟩
      · obtain ⟨c', hc', hid, q, hq, hqid, hcq⟩ := ih (bump ps p.id) e he'
        have hproj := find?_bump_proj ps p.id c'
        rw [hq] at hproj
        cases hfo : ps.find? (fun r => collide r c') with
        | none => rw [hfo] at hproj; simp at hproj
        | some q' =>
          rw [hfo] at hproj
          have hids : q.id = q'.id ∧ q.x = q'.x ∧ q.y = q'.y := by
            simpa using hproj
          have hcol' : collide q' c' = true := by
            rw [← collide_congr hids.2.1 hids.2.2 c']
            exact hcq
          exact ⟨c', List.mem_cons_of_mem _ hc', hid, q', hfo,
            hids.1.symm.trans hqid, hcol'⟩

lemma bump_score_spec (pid : String) :
    ∀ (ps : List Player), (ps.map Player.id).Nodup →
      List.Forall₂ (fun p q => q.id = p.id ∧
        q.score = p.score + (if p.id = pid then 1 else 0)) ps (bump ps pid) := by
  intro ps
  induction ps with
  | nil => intro _; exact List.Forall₂.nil
  | cons p t ih =>
    intro hN
    rw [List.map_cons, List.nodup_cons] at hN
    by_cases h : p.id = pid
    · simp only [bump, if_pos h]
      refine List.Forall₂.cons ⟨rfl, by simp [h]⟩ ?_
      refine List.forall₂_same.mpr fun q hq => ⟨rfl, ?_⟩
      have hne : q.id ≠ pid := by
        intro he
        apply hN.1
        rw [h, ← he]
        exact List.mem_map_of_mem Player.id hq
      rw [if_neg hne]
      omega
    · simp only [bump, if_neg h]
      exact List.Forall₂.cons ⟨rfl, by simp [h]⟩ (ih hN.2)

lemma runPass_score :
    ∀ (coins : List Coin) (mode : String) (ps : List Player) (w : Option String),
      (ps.map Player.id).Nodup →
      List.Forall₂ (fun p q => q.id = p.id ∧
          q.score = p.score + ((pickups ps coins).filter fun e => e.pid == p.id).length)
        ps (runPass mode ps w coins).players := by
  intro coins
  induction coins with
  | nil =>
    intro mode ps w _
    exact List.forall₂_same.mpr fun p _ => ⟨rfl, by simp [pickups]⟩
  | cons c cs ih =>
    intro mode ps w hN
    cases h : ps.find? (fun q => collide q c) with
    | none =>
      rw [runPass_cons_none h, pickups_cons_none h]
      exact ih mode ps w hN
    | some p =>
      rw [runPass_cons_some h, pickups_cons_some h]
      have hfun : ∀ a b d : Player,
          (b.id = a.id ∧ b.score = a.score + (if a.id = p.id then 1 else 0)) →
          (d.id = b.id ∧ d.score = b.score +
            ((pickups (bump ps p.id) cs).filter fun e => e.pid == b.id).length) →
          (d.id = a.id ∧ d.score = a.score +
            ((⟨c.id, p.id, p.score + 1⟩ :: pickups (bump ps p.id) cs).filter
              fun e => e.pid == a.id).length) := by
        intro a b d h1 h2
        refine ⟨h2.1.trans h1.1, ?_⟩
        rw [h2.2, h1.1, h1.2]
        by_cases ha : a.id = p.id
        · have hbeq : (p.id == a.id) = true := by simp [ha]
          simp [List.filter_cons, hbeq, ha]
          omega
        · have hbeq : (p.id == a.id) = false :=
            beq_eq_false_iff_ne.mpr fun he => ha he.symm
          simp [List.filter_cons, hbeq, ha]
      exact forall₂_trans_of hfun (bump_score_spec p.id ps hN)
        (ih mode (bump ps p.id) _ (by rw [bump_map_id]; exact hN))

lemma coin_eq_of_id_eq :
    ∀ {l : List Coin}, (l.map Coin.id).Nodup →
      ∀ {a b : Coin}, a ∈ l → b ∈ l → a.id = b.id → a = b := by
  intro l
  induction l with
  | nil => intro _ a b ha; cases ha
  | cons c t ih =>
    intro h a b ha hb hid
    rw [List.map_cons, List.nodup_cons] at h
    rcases List.mem_cons.mp ha with rfl | ha' <;> rcases List.mem_cons.mp hb with rfl | hb'
    · rfl
    · exact absurd (hid ▸ List.mem_map_of_mem Coin.id hb') h.1
    · exact absurd (hid ▸ List.mem_map_of_mem Coin.id ha') h.1
    · exact ih h.2 ha' hb' hid

lemma clamp_bounds (lo hi z : ℤ) (h : lo ≤ hi) :
    lo ≤ max lo (min hi z) ∧ max lo (min hi z) ≤ hi :=
  ⟨le_max_left _ _, max_le h (min_le_left _ _)⟩

lemma update_position_bounds (p : Player) :
    15 ≤ p.update_position.x ∧ p.update_position.x ≤ 585 ∧
      15 ≤ p.update_position.y ∧ p.update_position.y ≤ 385 := by
  have e1 : PLAYER_SIZE / 2 = (15 : ℤ) := by decide
  have e2 : SCREEN_WIDTH - PLAYER_SIZE / 2 = (585 : ℤ) := by decide
  have e3 : SCREEN_HEIGHT - PLAYER_SIZE / 2 = (385 : ℤ) := by decide
  simp only [Player.update_position, e1, e2, e3]
  exact ⟨(clamp_bounds 15 585 _ (by norm_num)).1, (clamp_bounds 15 585 _ (by norm_num)).2,
    (clamp_bounds 15 385 _ (by norm_num)).1, (clamp_bounds 15 385 _ (by norm_num)).2⟩

lemma map_map_id_of (f : Player → Player) (hf : ∀ p, (f p).id = p.id) :
    ∀ l : List Player, (l.map f).map Player.id = l.map Player.id := by
  intro l
  induction l with
  | nil => rfl
  | cons p t ih => simp [hf p, ih]

lemma spawnAll_fields :
    ∀ (posns : List (ℤ × ℤ)) (s : GameServer),
      (spawnAll s posns).players = s.players ∧
      (spawnAll s posns).game_started = s.game_started ∧
      (spawnAll s posns).game_mode = s.game_mode ∧
      (spawnAll s posns).winner = s.winner ∧
      (spawnAll s posns).player_count = s.player_count ∧
      (spawnAll s posns).next_coin_id = s.next_coin_id + posns.length ∧
      (spawnAll s posns).coins.length = s.coins.length + posns.length := by
  intro posns
  induction posns with
  | nil => intro s; exact ⟨rfl, rfl, rfl, rfl, rfl, rfl, rfl⟩
  | cons q qs ih =>
    intro s
    obtain ⟨h1, h2, h3, h4, h5, h6, h7⟩ := ih (s.spawn_coin q.1 q.2)
    refine ⟨h1, h2, h3, h4, h5, ?_, ?_⟩
    · show (spawnAll (s.spawn_coin q.1 q.2) qs).next_coin_id = _
      rw [h6]
      show s.next_coin_id + 1 + qs.length = s.next_coin_id + (qs.length + 1)
      omega
    · show (spawnAll (s.spawn_coin q.1 q.2) qs).coins.length = _
      rw [h7]
      simp [GameServer.spawn_coin]
      omega

lemma spawnAll_mem :
    ∀ (posns : List (ℤ × ℤ)) (s : GameServer) (c : Coin),
      c ∈ (spawnAll s posns).coins → c ∈ s.coins ∨ s.next_coin_id ≤ c.id := by
  intro posns
  induction posns with
  | nil => intro s c hc; exact Or.inl hc
  | cons q qs ih =>
    intro s c hc
    rcases ih (s.spawn_coin q.1 q.2) c hc with hin | hge
    · rcases List.mem_append.mp hin with hmem | hmem
      · exact Or.inl hmem
      · have hce : c = ⟨s.next_coin_id, q.1, q.2⟩ := by simpa using hmem
        exact Or.inr (by rw [hce])
    · exact Or.inr (le_trans (Nat.le_succ _) hge)

lemma spawnAll_coin_inv :
    ∀ (posns : List (ℤ × ℤ)) (s : GameServer),
      (∀ c ∈ s.coins, c.id < s.next_coin_id) →
      s.coins.Pairwise (fun a b => a.id < b.id) →
      (∀ c ∈ (spawnAll s posns).coins, c.id < (spawnAll s posns).next_coin_id) ∧
        (spawnAll s posns).coins.Pairwise (fun a b => a.id < b.id) := by
  intro posns
  induction posns with
  | nil => intro s h1 h2; exact ⟨h1, h2⟩
  | cons q qs ih =>
    intro s h1 h2
    apply ih
    · intro c hc
      rcases List.mem_append.mp hc with hmem | hmem
      · exact lt_trans (h1 c hmem) (Nat.lt_succ_self _)
      · have hce : c = ⟨s.next_coin_id, q.1, q.2⟩ := by simpa using hmem
        rw [hce]
        exact Nat.lt_succ_self _
    · show (s.coins ++ [(⟨s.next_coin_id, q.1, q.2⟩ : Coin)]).Pairwise _
      rw [List.pairwise_append]
      refine ⟨h2, List.pairwise_singleton _ _, fun a ha b hb => ?_⟩
      have hbe : b = ⟨s.next_coin_id, q.1, q.2⟩ := by simpa using hb
      rw [hbe]
      exact h1 a ha

lemma spawnTick_cons (s : GameServer) (q : ℤ × ℤ) (qs : List (ℤ × ℤ)) :
    spawnTick s (q :: qs) =
      if s.coins.length < MAX_COINS then spawnTick (s.spawn_coin q.1 q.2) qs else s := rfl

lemma spawnTick_fields :
    ∀ (posns : List (ℤ × ℤ)) (s : GameServer),
      (spawnTick s posns).players = s.players ∧
      (spawnTick s posns).game_started = s.game_started ∧
      (spawnTick s posns).game_mode = s.game_mode ∧
      (spawnTick s posns).winner = s.winner ∧
      (spawnTick s posns).player_count = s.player_count ∧
      s.next_coin_id ≤ (spawnTick s posns).next_coin_id := by
  intro posns
  induction posns with
  | nil => intro s; exact ⟨rfl, rfl, rfl, rfl, rfl, le_rfl⟩
  | cons q qs ih =>
    intro s
    rw [spawnTick_cons]
    by_cases h : s.coins.length < MAX_COINS
    · rw [if_pos h]
      obtain ⟨h1, h2, h3, h4, h5, h6⟩ := ih (s.spawn_coin q.1 q.2)
      exact ⟨h1, h2, h3, h4, h5, le_trans (Nat.le_succ _) h6⟩
    · rw [if_neg h]
      exact ⟨rfl, rfl, rfl, rfl, rfl, le_rfl⟩

lemma spawnTick_mem :
    ∀ (posns : List (ℤ × ℤ)) (s : GameServer) (c : Coin),
      c ∈ (spawnTick s posns).coins → c ∈ s.coins ∨ s.next_coin_id ≤ c.id := by
  intro posns
  induction posns with
  | nil => intro s c hc; exact Or.inl hc
  | cons q qs ih =>
    intro s c
    rw [spawnTick_cons]
    by_cases h : s.coins.length < MAX_COINS
    · rw [if_pos h]
      intro hc
      rcases ih (s.spawn_coin q.1 q.2) c hc with hin | hge
      · rcases List.mem_append.mp hin with hmem | hmem
        · exact Or.inl hmem
        · have hce : c = ⟨s.next_coin_id, q.1, q.2⟩ := by simpa using hmem
          exact Or.inr (by rw [hce])
      · exact Or.inr (le_trans (Nat.le_succ _) hge)
    · rw [if_neg h]
      exact Or.inl

lemma spawnTick_coin_inv :
    ∀ (posns : List (ℤ × ℤ)) (s : GameServer),
      (∀ c ∈ s.coins, c.id < s.next_coin_id) →
      s.coins.Pairwise (fun a b => a.id < b.id) →
      (∀ c ∈ (spawnTick s posns).coins, c.id < (spawnTick s posns).next_coin_id) ∧
        (spawnTick s posns).coins.Pairwise (fun a b => a.id < b.id) := by
  intro posns
  induction posns with
  | nil => intro s h1 h2; exact ⟨h1, h2⟩
  | cons q qs ih =>
    intro s h1 h2
    rw [spawnTick_cons]
    by_cases h : s.coins.length < MAX_COINS
    · rw [if_pos h]
      apply ih
      · intro c hc
        rcases List.mem_append.mp hc with hmem | hmem
        · exact lt_trans (h1 c hmem) (Nat.lt_succ_self _)
        · have hce : c = ⟨s.next_coin_id, q.1, q.2⟩ := by simpa using hmem
          rw [hce]
          exact Nat.lt_succ_self _
      · show (s.coins ++ [(⟨s.next_coin_id, q.1, q.2⟩ : Coin)]).Pairwise _
        rw [List.pairwise_append]
        refine ⟨h2, List.pairwise_singleton _ _, fun a ha b hb => ?_⟩
        have hbe : b = ⟨s.next_coin_id, q.1, q.2⟩ := by simpa using hb
        rw [hbe]
        exact h1 a ha
    · rw [if_neg h]
      exact ⟨h1, h2⟩

lemma tick_not_started {s : GameServer} (h : s.game_started = false) (sp : Bool)
    (posns : List (ℤ × ℤ)) : s.tick sp posns = s := by
  simp [GameServer.tick, h]

lemma tick_started {s : GameServer} (h : s.game_started = true) (sp : Bool)
    (posns : List (ℤ × ℤ)) :
    s.tick sp posns = if (s.tick_mid sp posns).winner.isSome then
      (s.tick_mid sp posns).reset_game else s.tick_mid sp posns := by
  simp [GameServer.tick, h]

lemma tick_mid_true (s : GameServer) (posns : List (ℤ × ℤ)) :
    s.tick_mid true posns =
      spawnTick { s with players := s.players.map Player.update_position }.check_collisions
        posns := by
  simp [GameServer.tick_mid]

lemma tick_mid_false (s : GameServer) (posns : List (ℤ × ℤ)) :
    s.tick_mid false posns =
      { s with players := s.players.map Player.update_position }.check_collisions := by
  simp [GameServer.tick_mid]

lemma check_collisions_core (s : GameServer)
    (hb : ∀ p ∈ s.players, 15 ≤ p.x ∧ p.x ≤ 585 ∧ 15 ≤ p.y ∧ p.y ≤ 385)
    (hlt : ∀ c ∈ s.coins, c.id < s.next_coin_id)
    (hpw : s.coins.Pairwise fun a b => a.id < b.id)
    (hnd : (s.players.map Player.id).Nodup) :
    (∀ p ∈ s.check_collisions.players, 15 ≤ p.x ∧ p.x ≤ 585 ∧ 15 ≤ p.y ∧ p.y ≤ 385) ∧
    (∀ c ∈ s.check_collisions.coins, c.id < s.check_collisions.next_coin_id) ∧
    s.check_collisions.coins.Pairwise (fun a b => a.id < b.id) ∧
    (s.check_collisions.players.map Player.id).Nodup := by
  have hsh := runPass_shape s.game_mode s.coins s.players s.winner
  refine ⟨?_, ?_, ?_, ?_⟩
  · intro p hp
    obtain ⟨p0, hp0, hr⟩ := forall₂_mem_right hsh hp
    obtain ⟨_, _, hx, hy, _, _, _, _⟩ := hr
    rw [hx, hy]
    exact hb p0 hp0
  · intro c hc
    exact hlt c (List.mem_of_mem_filter hc)
  · exact List.Pairwise.sublist (List.filter_sublist _) hpw
  · show ((runPass s.game_mode s.players s.winner s.coins).players.map Player.id).Nodup
    rw [forall₂_shape_map_id hsh]
    exact hnd

lemma tick_mid_inv {s : GameServer}
    (_hb : ∀ p ∈ s.players, 15 ≤ p.x ∧ p.x ≤ 585 ∧ 15 ≤ p.y ∧ p.y ≤ 385)
    (hlt : ∀ c ∈ s.coins, c.id < s.next_coin_id)
    (hpw : s.coins.Pairwise fun a b => a.id < b.id)
    (hnd : (s.players.map Player.id).Nodup) (sp : Bool) (posns : List (ℤ × ℤ)) :
    (∀ p ∈ (s.tick_mid sp posns).players, 15 ≤ p.x ∧ p.x ≤ 585 ∧ 15 ≤ p.y ∧ p.y ≤ 385) ∧
    (∀ c ∈ (s.tick_mid sp posns).coins, c.id < (s.tick_mid sp posns).next_coin_id) ∧
    (s.tick_mid sp posns).coins.Pairwise (fun a b => a.id < b.id) ∧
    ((s.tick_mid sp posns).players.map Player.id).Nodup ∧
    (s.tick_mid sp posns).game_started = s.game_started := by
  have hb1 : ∀ p ∈ s.players.map Player.update_position,
      15 ≤ p.x ∧ p.x ≤ 585 ∧ 15 ≤ p.y ∧ p.y ≤ 385 := by
    intro p hp
    obtain ⟨p0, _, hpe⟩ := List.mem_map.mp hp
    rw [← hpe]
    exact update_position_bounds p0
  have hnd1 : ((s.players.map Player.update_position).map Player.id).Nodup := by
    rw [map_map_id_of Player.update_position (fun p => rfl)]
    exact hnd
  obtain ⟨hb2, hlt2, hpw2, hnd2⟩ := check_collisions_core
    { s with players := s.players.map Player.update_position } hb1 hlt hpw hnd1
  cases sp
  · rw [tick_mid_false]
    exact ⟨hb2, hlt2, hpw2, hnd2, rfl⟩
  · rw [tick_mid_true]
    obtain ⟨hf1, hf2, _, _, _, _⟩ := spawnTick_fields posns
      { s with players := s.players.map Player.update_position }.check_collisions
    obtain ⟨hg1, hg2⟩ := spawnTick_coin_inv posns
      { s with players := s.players.map Player.update_position }.check_collisions hlt2 hpw2
    refine ⟨?_, hg1, hg2, ?_, hf2⟩
    · intro p hp
      rw [hf1] at hp
      exact hb2 p hp
    · rw [hf1]
      exact hnd2

lemma inv_preserved {s s' : GameServer} (h : Inv s) (hst : Step s s') : Inv s' := by
  obtain ⟨hb, hlt, hpw, hemp, hnd⟩ := h
  cases hst with
  | connect pid x y hx1 hx2 hy1 hy2 hf =>
    refine ⟨?_, hlt, hpw, hemp, ?_⟩
    · intro p hp
      rcases List.mem_append.mp hp with hmem | hmem
      · exact hb p hmem
      · have hx30 : (30 : ℤ) ≤ x := by simpa [PLAYER_SIZE] using hx1
        have hx570 : x ≤ 570 := by simpa [SCREEN_WIDTH, PLAYER_SIZE] using hx2
        have hy30 : (30 : ℤ) ≤ y := by simpa [PLAYER_SIZE] using hy1
        have hy370 : y ≤ 370 := by simpa [SCREEN_HEIGHT, PLAYER_SIZE] using hy2
        have hpe : p = ⟨pid, if s.player_count = 0 then "Alice" else "Bob", x, y, 0,
            if s.player_count = 0 then [255, 100, 100] else [100, 100, 255], 0, 0⟩ := by
          simpa using hmem
        rw [hpe]
        exact ⟨by show (15 : ℤ) ≤ x; omega, by show x ≤ (585 : ℤ); omega,
          by show (15 : ℤ) ≤ y; omega, by show y ≤ (385 : ℤ); omega⟩
    · show ((s.players ++ [_]).map Player.id).Nodup
      rw [List.map_append, List.nodup_append]
      refine ⟨hnd, List.nodup_singleton _, ?_⟩
      intro a ha hmem2
      have hae : a = pid := by simpa using hmem2
      obtain ⟨p, hp, hpa⟩ := List.mem_map.mp ha
      exact hf p hp (by rw [hpa, hae])
  | disconnect pid =>
    unfold GameServer.disconnect
    by_cases hc : s.players.any fun p => p.id = pid
    · rw [if_pos hc]
      refine ⟨?_, hlt, hpw, hemp, ?_⟩
      · intro p hp
        exact hb p (List.mem_of_mem_filter hp)
      · exact List.Nodup.sublist (List.Sublist.map _ (List.filter_sublist _)) hnd
    · rw [if_neg hc]
      exact ⟨hb, hlt, hpw, hemp, hnd⟩
  | input pid dx dy =>
    refine ⟨?_, hlt, hpw, hemp, ?_⟩
    · intro p hp
      obtain ⟨p0, hp0, hpe⟩ := List.mem_map.mp hp
      rw [← hpe]
      by_cases he : p0.id = pid
      · simp only [if_pos he]
        exact hb p0 hp0
      · simp only [if_neg he]
        exact hb p0 hp0
    · show ((s.players.map fun p =>
        if p.id = pid then { p with velocity_x := dx, velocity_y := dy } else p).map
          Player.id).Nodup
      rw [map_map_id_of _ (fun p => by by_cases he : p.id = pid <;> simp [he])]
      exact hnd
  | startMsg mode posns hl1 hl2 hrng =>
    unfold GameServer.handle_start_game
    by_cases hcond : s.game_started = false ∧ 2 ≤ s.players.length
    · rw [if_pos hcond]
      show Inv (spawnAll { s with game_mode := mode.getD "endless", game_started := true, winner := none } posns)
      obtain ⟨hp1, hp2, _, _, _, _, _⟩ := spawnAll_fields posns
        { s with game_mode := mode.getD "endless", game_started := true, winner := none }
      obtain ⟨hia, hib⟩ := spawnAll_coin_inv posns
        { s with game_mode := mode.getD "endless", game_started := true, winner := none }
        (fun c hc => hlt c hc) hpw
      refine ⟨?_, hia, hib, ?_, ?_⟩
      · intro p hp
        rw [hp1] at hp
        exact hb p hp
      · intro hfalse
        rw [hp2] at hfalse
        exact Bool.noConfusion hfalse
      · rw [hp1]
        exact hnd
    · rw [if_neg hcond]
      exact ⟨hb, hlt, hpw, hemp, hnd⟩
  | tickStep sp posns hl1 hl2 hrng =>
    by_cases hgs : s.game_started = true
    · rw [tick_started hgs]
      obtain ⟨mb, mlt, mpw, mnd, mst⟩ := tick_mid_inv hb hlt hpw hnd sp posns
      by_cases hw : (s.tick_mid sp posns).winner.isSome
      · rw [if_pos hw]
        refine ⟨?_, ?_, ?_, ?_, ?_⟩
        · intro p hp
          obtain ⟨p0, hp0, hpe⟩ := List.mem_map.mp hp
          rw [← hpe]
          exact mb p0 hp0
        · intro c hc
          exact absurd hc (by simp [GameServer.reset_game])
        · exact List.Pairwise.nil
        · intro _
          rfl
        · show (((s.tick_mid sp posns).players.map fun p => { p with score := 0 }).map
            Player.id).Nodup
          rw [map_map_id_of (fun p => { p with score := 0 }) (fun p => rfl)]
          exact mnd
      · rw [if_neg hw]
        refine ⟨mb, mlt, mpw, ?_, mnd⟩
        intro hfalse
        rw [mst, hgs] at hfalse
        exact Bool.noConfusion hfalse
    · have hgs2 : s.game_started = false := by
        cases hgb : s.game_started
        · rfl
        · exact absurd hgb hgs
      rw [tick_not_started hgs2]
      exact ⟨hb, hlt, hpw, hemp, hnd⟩

lemma inv_initial : Inv GameServer.initial := by
  refine ⟨?_, ?_, ?_, ?_, ?_⟩ <;> simp [GameServer.initial]

lemma reachable_inv {s : GameServer} (h : Reachable s) : Inv s := by
  induction h with
  | refl => exact inv_initial
  | tail _ hstep ih => exact inv_preserved ih hstep

lemma tick_mid_next (s : GameServer) (sp : Bool) (posns : List (ℤ × ℤ)) :
    s.next_coin_id ≤ (s.tick_mid sp posns).next_coin_id := by
  cases sp
  · rw [tick_mid_false]
    exact le_rfl
  · rw [tick_mid_true]
    exact (spawnTick_fields posns
      { s with players := s.players.map Player.update_position }.check_collisions).2.2.2.2.2

lemma tick_mid_coins_new (s : GameServer) (sp : Bool) (posns : List (ℤ × ℤ)) :
    ∀ c ∈ (s.tick_mid sp posns).coins, c ∈ s.coins ∨ s.next_coin_id ≤ c.id := by
  cases sp
  · rw [tick_mid_false]
    intro c hc
    exact Or.inl (List.mem_of_mem_filter hc)
  · rw [tick_mid_true]
    intro c hc
    rcases spawnTick_mem posns _ c hc with hin | hge
    · exact Or.inl (List.mem_of_mem_filter hin)
    · exact Or.inr hge

lemma step_next_mono {s s2 : GameServer} (hst : Step s s2) :
    s.next_coin_id ≤ s2.next_coin_id := by
  cases hst with
  | connect pid x y hx1 hx2 hy1 hy2 hf => exact le_rfl
  | disconnect pid =>
    unfold GameServer.disconnect
    by_cases hc : s.players.any fun p => p.id = pid
    · rw [if_pos hc]
    · rw [if_neg hc]
  | input pid dx dy => exact le_rfl
  | startMsg mode posns hl1 hl2 hrng =>
    unfold GameServer.handle_start_game
    by_cases hcond : s.game_started = false ∧ 2 ≤ s.players.length
    · rw [if_pos hcond]
      show s.next_coin_id ≤ (spawnAll { s with game_mode := mode.getD "endless", game_started := true, winner := none } posns).next_coin_id
      rw [(spawnAll_fields posns _).2.2.2.2.2.1]
      exact Nat.le_add_right _ _
    · rw [if_neg hcond]
  | tickStep sp posns hl1 hl2 hrng =>
    by_cases hgs : s.game_started = true
    · rw [tick_started hgs]
      by_cases hw : (s.tick_mid sp posns).winner.isSome
      · rw [if_pos hw]
        exact tick_mid_next s sp posns
      · rw [if_neg hw]
        exact tick_mid_next s sp posns
    · have hgs2 : s.game_started = false := by
        cases hgb : s.game_started
        · rfl
        · exact absurd hgb hgs
      rw [tick_not_started hgs2]

lemma step_coins_new {s s2 : GameServer} (hst : Step s s2) :
    ∀ c ∈ s2.coins, c ∈ s.coins ∨ s.next_coin_id ≤ c.id := by
  cases hst with
  | connect pid x y hx1 hx2 hy1 hy2 hf => exact fun c hc => Or.inl hc
  | disconnect pid =>
    unfold GameServer.disconnect
    by_cases hc : s.players.any fun p => p.id = pid
    · rw [if_pos hc]
      exact fun c hc2 => Or.inl hc2
    · rw [if_neg hc]
      exact fun c hc2 => Or.inl hc2
  | input pid dx dy => exact fun c hc => Or.inl hc
  | startMsg mode posns hl1 hl2 hrng =>
    unfold GameServer.handle_start_game
    by_cases hcond : s.game_started = false ∧ 2 ≤ s.players.length
    · rw [if_pos hcond]
      intro c hc
      exact spawnAll_mem posns { s with game_mode := mode.getD "endless", game_started := true, winner := none } c hc
    · rw [if_neg hcond]
      exact fun c hc => Or.inl hc
  | tickStep sp posns hl1 hl2 hrng =>
    by_cases hgs : s.game_started = true
    · rw [tick_started hgs]
      by_cases hw : (s.tick_mid sp posns).winner.isSome
      · rw [if_pos hw]
        intro c hc
        exact absurd hc (by simp [GameServer.reset_game])
      · rw [if_neg hw]
        exact tick_mid_coins_new s sp posns
    · have hgs2 : s.game_started = false := by
        cases hgb : s.game_started
        · rfl
        · exact absurd hgb hgs
      rw [tick_not_started hgs2]
      exact fun c hc => Or.inl hc

lemma absent_id_persists {s s2 : GameServer} (h : Relation.ReflTransGen Step s s2) :
    ∀ i : ℕ, i < s.next_coin_id → i ∉ s.coins.map Coin.id →
      i < s2.next_coin_id ∧ i ∉ s2.coins.map Coin.id := by
  induction h with
  | refl => exact fun i h1 h2 => ⟨h1, h2⟩
  | tail _ hstep ih =>
    intro i h1 h2
    obtain ⟨h3, h4⟩ := ih i h1 h2
    refine ⟨lt_of_lt_of_le h3 (step_next_mono hstep), ?_⟩
    intro hmem
    obtain ⟨c, hc, hcid⟩ := List.mem_map.mp hmem
    rcases step_coins_new hstep c hc with hin | hge
    · exact h4 (hcid ▸ List.mem_map_of_mem Coin.id hin)
    · omega

lemma reach_s1 : Reachable s1 :=
  Relation.ReflTransGen.single
    (Step.connect GameServer.initial "a" 100 100 (by decide) (by decide) (by decide) (by decide)
      (by intro p hp; exact absurd hp (by simp [GameServer.initial])))

lemma reach_s2 : Reachable s2 :=
  reach_s1.tail
    (Step.connect s1 "b" 300 300 (by decide) (by decide) (by decide) (by decide) (by decide))

lemma reach_sThree : Reachable sThree :=
  reach_s2.tail
    (Step.connect s2 "c" 100 100 (by decide) (by decide) (by decide) (by decide) (by decide))

lemma reach_sG : Reachable sG :=
  reach_s2.tail (Step.startMsg s2 (some "sprint") posns4 (by decide) (by decide) (by decide))

lemma reach_sT1 : Reachable sT1 :=
  reach_sG.tail (Step.tickStep sG true posns2 (by decide) (by decide) (by decide))

lemma reach_sT2 : Reachable sT2 :=
  reach_sT1.tail (Step.tickStep sT1 true posns2 (by decide) (by decide) (by decide))

lemma reach_sT3 : Reachable sT3 :=
  reach_sT2.tail (Step.tickStep sT2 true posns2 (by decide) (by decide) (by decide))

lemma reach_sT4 : Reachable sT4 :=
  reach_sT3.tail (Step.tickStep sT3 true posns2 (by decide) (by decide) (by decide))

lemma reach_sT5 : Reachable sT5 :=
  reach_sT4.tail (Step.tickStep sT4 true posns2 (by decide) (by decide) (by decide))

lemma reach_sT6 : Reachable sT6 :=
  reach_sT5.tail (Step.tickStep sT5 true posns2 (by decide) (by decide) (by decide))

lemma reach_sT7 : Reachable sT7 :=
  reach_sT6.tail (Step.tickStep sT6 true posns2 (by decide) (by decide) (by decide))

lemma reach_sT8 : Reachable sT8 :=
  reach_sT7.tail (Step.tickStep sT7 true posns2 (by decide) (by decide) (by decide))

lemma start_game_def (t : GameServer) (mode : String) (posns : List (ℤ × ℤ)) :
    t.start_game mode posns =
      spawnAll { t with game_mode := mode, game_started := true, winner := none } posns := rfl

lemma forall₂_map_self {R : Player → Player → Prop} (f : Player → Player)
    (h : ∀ a, R a (f a)) : ∀ l : List Player, List.Forall₂ R l (l.map f) := by
  intro l
  induction l with
  | nil => exact List.Forall₂.nil
  | cons p t ih => exact List.Forall₂.cons (h p) ih

/-- C1, counterexample.  In the reachable sprint session sT8 both players
have score 9 and two coins are pending, one on "b" (iterated first) and one
on "a".  In the collision pass the qualifying pickups are, in iteration
order, by "b" and then by "a" — so the first player to reach the threshold
during the pass is "b" — yet the winner set by the pass is "a", and both
coins are still collected (two removals), i.e. collision evaluation did not
stop when the winner was first set. -/
theorem C1_counterexample :
    Reachable sT8 ∧ sT8.game_mode = "sprint" ∧ sT8.game_started = true ∧ sT8.winner = none ∧
    ((pickups sT8.players sT8.coins).filter fun e =>
        decide (SPRINT_WIN_SCORE ≤ e.newScore)).map Pickup.pid = ["b", "a"] ∧
    (runPass sT8.game_mode sT8.players sT8.winner sT8.coins).winner = some "a" ∧
    (runPass sT8.game_mode sT8.players sT8.winner sT8.coins).removed.length = 2 :=
  ⟨reach_sT8, by decide, by decide, by decide, by decide, by decide, by decide⟩

/-- C1, amended.  The scores and removals computed by a collision pass do
not depend on the winner or the mode at all — setting the winner never stops
the evaluation of the remaining coins — and in sprint mode the winner set by
the pass is the player of the last pickup (in coin-iteration order) whose
new score reaches the threshold, each later qualifier overwriting the
earlier; with no qualifying pickup the winner is unchanged. -/
theorem C1_amended_pass_winner :
    (∀ (mode mode2 : String) (ps : List Player) (w w2 : Option String) (coins : List Coin),
       (runPass mode ps w coins).players = (runPass mode2 ps w2 coins).players ∧
       (runPass mode ps w coins).removed = (runPass mode2 ps w2 coins).removed) ∧
    (∀ (ps : List Player) (w : Option String) (coins : List Coin),
       (runPass "sprint" ps w coins).winner =
         match ((pickups ps coins).filter fun e =>
             decide (SPRINT_WIN_SCORE ≤ e.newScore)).getLast? with
         | some e => some e.pid
         | none => w) :=
  ⟨fun mode mode2 ps w w2 coins => runPass_indep coins ps mode mode2 w w2,
   fun ps w coins => runPass_winner_sprint coins ps w⟩

/-- C2, counterexample.  With two players connected ("a" and "b"), a third
connection "c" is not rejected: handle_client adds it, and the resulting
three-player session state is reachable. -/
theorem C2_counterexample :
    Reachable s2 ∧ s2.players.length = 2 ∧
    sThree = (s2.handle_client "c" 100 100).1 ∧ sThree.players.length = 3 ∧
    Reachable sThree :=
  ⟨reach_s2, by decide, rfl, by decide, reach_sThree⟩

/-- C2, amended.  The server enforces no capacity limit: every connection
attempt adds exactly one player to the session regardless of how many are
already connected, and in particular a session state with three players is
reachable. -/
theorem C2_amended_no_capacity :
    (∀ (t : GameServer) (pid : String) (x y : ℤ),
       (t.handle_client pid x y).1.players.length = t.players.length + 1) ∧
    (∃ t : GameServer, Reachable t ∧ 3 ≤ t.players.length) :=
  ⟨fun t pid x y => by simp [GameServer.handle_client],
   ⟨sThree, reach_sThree, by decide⟩⟩

/-- C3.  For a collision pass over player and coin lists with distinct ids:
a coin is claimed (its id marked for removal) exactly when some player is at
Euclidean distance strictly below 25 from it; every pickup is claimed by the
first player (in iteration order) within the threshold; each player's final
score is its initial score plus the number of its pickups (each pickup adds
exactly 1); each coin is claimed at most once; after the pass every removed
id is absent from the coin set; and an id that is absent and below the
freshness counter never reappears in any later reachable state. -/
theorem C3_collision_pass (mode : String) (ps : List Player) (w : Option String)
    (coins : List Coin) (hN : (ps.map Player.id).Nodup) (hC : (coins.map Coin.id).Nodup) :
    (∀ c ∈ coins, (c.id ∈ (runPass mode ps w coins).removed ↔
       ∃ p ∈ ps, euclidDist p c < 25)) ∧
    (∀ e ∈ pickups ps coins, ∃ c ∈ coins, c.id = e.coinId ∧
       ∃ p, (ps.find? fun q => collide q c) = some p ∧ p.id = e.pid ∧ euclidDist p c < 25) ∧
    List.Forall₂ (fun p q => q.id = p.id ∧
       q.score = p.score + ((pickups ps coins).filter fun e => e.pid == p.id).length)
      ps (runPass mode ps w coins).players ∧
    ((pickups ps coins).map Pickup.coinId).Nodup ∧
    (∀ i ∈ (runPass mode ps w coins).removed,
       ∀ c ∈ coins.filter fun c => decide (c.id ∉ (runPass mode ps w coins).removed),
         c.id ≠ i) ∧
    (∀ t t2 : GameServer, Relation.ReflTransGen Step t t2 →
       ∀ i : ℕ, i < t.next_coin_id → i ∉ t.coins.map Coin.id →
         i ∉ t2.coins.map Coin.id) := by
  refine ⟨?_, ?_, runPass_score coins mode ps w hN, ?_, ?_, ?_⟩
  · intro c hc
    rw [runPass_removed mode coins ps w]
    constructor
    · intro hid
      obtain ⟨c2, hc2f, hc2id⟩ := List.mem_map.mp hid
      have hc2mem := List.mem_of_mem_filter hc2f
      have hc2any := (List.mem_filter.mp hc2f).2
      have hceq : c2 = c := coin_eq_of_id_eq hC hc2mem hc hc2id
      rw [hceq] at hc2any
      obtain ⟨p, hp, hcol⟩ := List.any_eq_true.mp hc2any
      exact ⟨p, hp, (collide_iff_dist p c).mp hcol⟩
    · intro hex
      obtain ⟨p, hp, hdist⟩ := hex
      have hcol := (collide_iff_dist p c).mpr hdist
      exact List.mem_map_of_mem Coin.id
        (List.mem_filter.mpr ⟨hc, List.any_eq_true.mpr ⟨p, hp, hcol⟩⟩)
  · intro e he
    obtain ⟨c, hc, hid, p, hp, hpid, hcol⟩ := pickups_claimer coins ps e he
    exact ⟨c, hc, hid, p, hp, hpid, (collide_iff_dist p c).mp hcol⟩
  · rw [pickups_coinIds coins ps]
    exact List.Nodup.sublist (List.Sublist.map Coin.id (List.filter_sublist coins)) hC
  · intro i hi c hcf heq
    have hnot := (List.mem_filter.mp hcf).2
    rw [decide_eq_true_iff] at hnot
    exact hnot (heq ▸ hi)
  · intro t t2 hrt i h1 h2
    exact (absent_id_persists hrt i h1 h2).2

/-- C3, witness at a concrete input: in the session sWin the single coin 0
sits on player "a", and the pass removes it exactly because a player is
within distance 25. -/
theorem C3_collision_pass_witness :
    (⟨0, 100, 100⟩ : Coin).id ∈
        (runPass "sprint" sWin.players none sWin.coins).removed ↔
      ∃ p ∈ sWin.players, euclidDist p ⟨0, 100, 100⟩ < 25 :=
  (C3_collision_pass "sprint" sWin.players none sWin.coins (by decide) (by decide)).1
    ⟨0, 100, 100⟩ (by decide)

/-- C4.  The position update clamps both coordinates into
[15, 585] × [15, 385] for every player, and every reachable session state
satisfies these bounds for every connected player (the initial spawn range
[30, 570] × [30, 370] is contained in them). -/
theorem C4_bounds_invariant :
    (∀ p : Player, 15 ≤ p.update_position.x ∧ p.update_position.x ≤ 585 ∧
       15 ≤ p.update_position.y ∧ p.update_position.y ≤ 385) ∧
    (∀ t : GameServer, Reachable t →
       ∀ p ∈ t.players, 15 ≤ p.x ∧ p.x ≤ 585 ∧ 15 ≤ p.y ∧ p.y ≤ 385) :=
  ⟨update_position_bounds, fun _ ht => (reachable_inv ht).1⟩

/-- C4, witness: the bounds hold for the player of the reachable one-player
session s1. -/
theorem C4_bounds_invariant_witness :
    15 ≤ (⟨"a", "Alice", 100, 100, 0, [255, 100, 100], 0, 0⟩ : Player).x ∧
      (⟨"a", "Alice", 100, 100, 0, [255, 100, 100], 0, 0⟩ : Player).x ≤ 585 ∧
      15 ≤ (⟨"a", "Alice", 100, 100, 0, [255, 100, 100], 0, 0⟩ : Player).y ∧
      (⟨"a", "Alice", 100, 100, 0, [255, 100, 100], 0, 0⟩ : Player).y ≤ 385 :=
  C4_bounds_invariant.2 s1 reach_s1
    ⟨"a", "Alice", 100, 100, 0, [255, 100, 100], 0, 0⟩ (by decide)

/-- C5.  In every reachable state all coin ids are below the freshness
counter and the coin list is strictly increasing in id (spawn order); the
counter never decreases across any event, including the game-over reset; a
coin present after an event whose id was not present before carries a fresh
id (at least the old counter value), so ids are never reused; and spawn_coin
always assigns exactly the current counter value and increments it. -/
theorem C5_coin_ids (u v : GameServer) (hu : Reachable u) (hst : Step u v) :
    (∀ c ∈ u.coins, c.id < u.next_coin_id) ∧
    u.coins.Pairwise (fun a b => a.id < b.id) ∧
    u.next_coin_id ≤ v.next_coin_id ∧
    (∀ c ∈ v.coins, c.id ∉ u.coins.map Coin.id → u.next_coin_id ≤ c.id) ∧
    (∀ (t : GameServer) (x y : ℤ),
       (t.spawn_coin x y).coins.map Coin.id = t.coins.map Coin.id ++ [t.next_coin_id] ∧
       (t.spawn_coin x y).next_coin_id = t.next_coin_id + 1) := by
  obtain ⟨_, hlt, hpw, _, _⟩ := reachable_inv hu
  refine ⟨hlt, hpw, step_next_mono hst, ?_, ?_⟩
  · intro c hc hnotin
    rcases step_coins_new hst c hc with hin | hge
    · exact absurd (List.mem_map_of_mem Coin.id hin) hnotin
    · exact hge
  · intro t x y
    exact ⟨by simp [GameServer.spawn_coin], rfl⟩

/-- C5, witness: starting a game from the reachable two-player session s2
spawns three coins and advances the counter monotonically. -/
theorem C5_coin_ids_witness :
    (∀ c ∈ s2.coins, c.id < s2.next_coin_id) ∧
    s2.next_coin_id ≤ (s2.handle_start_game (some "sprint") posns3).next_coin_id :=
  have h := C5_coin_ids s2 (s2.handle_start_game (some "sprint") posns3) reach_s2
    (Step.startMsg s2 (some "sprint") posns3 (by decide) (by decide) (by decide))
  ⟨h.1, h.2.2.1⟩

/-- C6.  A collision pass changes the winner only when the mode is sprint
and then the winner is a player of the resulting list whose score has
reached the threshold 10; in endless mode the pass never changes the
winner, no matter the scores. -/
theorem C6_winner_condition (mode : String) (ps : List Player) (w : Option String)
    (coins : List Coin) (hN : (ps.map Player.id).Nodup) :
    ((runPass mode ps w coins).winner = w ∨
      (mode = "sprint" ∧ ∃ p ∈ (runPass mode ps w coins).players,
        (runPass mode ps w coins).winner = some p.id ∧ SPRINT_WIN_SCORE ≤ p.score)) ∧
    (runPass "endless" ps w coins).winner = w :=
  ⟨runPass_winner_cases mode coins ps w hN,
   runPass_winner_of_ne (by decide) coins ps w⟩

/-- C6, witness at the concrete sprint session sWin (player "a" at score 9
on a coin): the disjunction and the endless no-winner clause instantiate. -/
theorem C6_winner_condition_witness :
    ((runPass "sprint" sWin.players none sWin.coins).winner = none ∨
      ("sprint" = "sprint" ∧ ∃ p ∈ (runPass "sprint" sWin.players none sWin.coins).players,
        (runPass "sprint" sWin.players none sWin.coins).winner = some p.id ∧
          SPRINT_WIN_SCORE ≤ p.score)) ∧
    (runPass "endless" sWin.players none sWin.coins).winner = none :=
  C6_winner_condition "sprint" sWin.players none sWin.coins (by decide)

/-- C7, counterexample.  The reachable three-player, not-started session
sThree honors a start_game request with the invalid mode string "turbo":
the game starts and the session mode becomes "turbo", although neither
"exactly 2 players" nor "mode is sprint or endless" holds. -/
theorem C7_counterexample :
    Reachable sThree ∧ sThree.players.length = 3 ∧ sThree.game_started = false ∧
    (sThree.handle_start_game (some "turbo") posns3).game_started = true ∧
    (sThree.handle_start_game (some "turbo") posns3).game_mode = "turbo" ∧
    (sThree.handle_start_game (some "turbo") posns3).coins.length = 3 :=
  ⟨reach_sThree, by decide, by decide, by decide, by decide, by decide⟩

/-- C7, amended.  A start_game request is honored exactly when the game has
not started and at least 2 players are present; the mode string is not
validated (a missing mode defaults to endless); when honored it sets the
started flag, clears the winner, records the requested mode, leaves the
players unchanged and spawns one coin per drawn position (for a reachable
state this makes the coin count exactly the drawn count, which the step
relation constrains to [3, 5]); otherwise the request leaves the state
unchanged. -/
theorem C7_amended_start_game (t : GameServer) (mode : Option String)
    (posns : List (ℤ × ℤ)) :
    (¬ (t.game_started = false ∧ 2 ≤ t.players.length) →
       t.handle_start_game mode posns = t) ∧
    (t.game_started = false → 2 ≤ t.players.length →
       (t.handle_start_game mode posns).game_started = true ∧
       (t.handle_start_game mode posns).winner = none ∧
       (t.handle_start_game mode posns).game_mode = mode.getD "endless" ∧
       (t.handle_start_game mode posns).players = t.players ∧
       (t.handle_start_game mode posns).coins.length = t.coins.length + posns.length ∧
       (Reachable t → (t.handle_start_game mode posns).coins.length = posns.length)) := by
  constructor
  · intro hcond
    unfold GameServer.handle_start_game
    rw [if_neg hcond]
  · intro h1 h2
    have hcond : t.game_started = false ∧ 2 ≤ t.players.length := ⟨h1, h2⟩
    unfold GameServer.handle_start_game
    rw [if_pos hcond, start_game_def]
    obtain ⟨hp1, hp2, hp3, hp4, _, _, hp7⟩ := spawnAll_fields posns
      { t with game_mode := mode.getD "endless", game_started := true, winner := none }
    refine ⟨hp2, hp4, hp3, hp1, hp7, ?_⟩
    intro hre
    have hcoins : t.coins = [] := (reachable_inv hre).2.2.2.1 h1
    rw [hp7]
    show t.coins.length + posns.length = posns.length
    rw [hcoins]
    simp

/-- C7, witness: starting a sprint game from the reachable two-player
session s2 with three drawn positions is honored and spawns exactly three
coins. -/
theorem C7_amended_start_game_witness :
    (s2.handle_start_game (some "sprint") posns3).game_started = true ∧
    (s2.handle_start_game (some "sprint") posns3).winner = none ∧
    (s2.handle_start_game (some "sprint") posns3).game_mode = "sprint" ∧
    (s2.handle_start_game (some "sprint") posns3).players = s2.players ∧
    (s2.handle_start_game (some "sprint") posns3).coins.length =
      s2.coins.length + posns3.length ∧
    (s2.handle_start_game (some "sprint") posns3).coins.length = posns3.length :=
  have h := (C7_amended_start_game s2 (some "sprint") posns3).2 rfl (by decide)
  ⟨h.1, h.2.1, h.2.2.1, h.2.2.2.1, h.2.2.2.2.1, h.2.2.2.2.2 reach_s2⟩

/-- C8, counterexample.  The welcome message built for an accepted
connection carries exactly the keys type, player_id and player_data: there
is no simulated_latency field (the client reads that key and substitutes its
default), so the message does not contain the assigned simulated-latency
value. -/
theorem C8_counterexample :
    ((GameServer.initial.handle_client "a" 100 100).2.map Prod.fst =
      ["type", "player_id", "player_data"]) ∧
    (GameServer.initial.handle_client "a" 100 100).2.lookup "simulated_latency" = none :=
  ⟨rfl, rfl⟩

/-- C8, amended.  For every accepted connection the welcome message contains
the assigned player id and the full initial snapshot of the player that was
added (id, spawn position, zero score, zero velocity), but no
simulated-latency field. -/
theorem C8_amended_welcome (t : GameServer) (pid : String) (x y : ℤ) :
    (t.handle_client pid x y).2.lookup "type" = some (.jstr "welcome") ∧
    (t.handle_client pid x y).2.lookup "player_id" = some (.jstr pid) ∧
    (t.handle_client pid x y).2.lookup "simulated_latency" = none ∧
    ∃ p : Player, (t.handle_client pid x y).1.players = t.players ++ [p] ∧
      (t.handle_client pid x y).2.lookup "player_data" = some (.jobj p.to_dict) ∧
      p.id = pid ∧ p.x = x ∧ p.y = y ∧ p.score = 0 ∧ p.velocity_x = 0 ∧ p.velocity_y = 0 :=
  ⟨rfl, rfl, rfl,
    ⟨⟨pid, if t.player_count = 0 then "Alice" else "Bob", x, y, 0,
        if t.player_count = 0 then [255, 100, 100] else [100, 100, 255], 0, 0⟩,
      rfl, rfl, rfl, rfl, rfl, rfl, rfl, rfl⟩⟩

lemma entDist2_interpolate (e : InterpolatedEntity) :
    entDist2 (e.interpolate (3/10)) = (49/100) * entDist2 e := by
  simp only [entDist2, InterpolatedEntity.interpolate]
  ring

lemma entDist2_nonneg (e : InterpolatedEntity) : 0 ≤ entDist2 e :=
  add_nonneg (mul_self_nonneg _) (mul_self_nonneg _)

lemma entDist2_iterate (e : InterpolatedEntity) (n : ℕ) :
    entDist2 ((fun t => t.interpolate (3/10))^[n] e) = (49/100) ^ n * entDist2 e := by
  induction n with
  | zero => simp
  | succ k ih =>
    rw [Function.iterate_succ_apply']
    show entDist2 (((fun t => t.interpolate (3/10))^[k] e).interpolate (3/10)) = _
    rw [entDist2_interpolate, ih]
    ring

lemma entDist2_pos {e : InterpolatedEntity}
    (h : ¬ (e.display_x = e.target_x ∧ e.display_y = e.target_y)) : 0 < entDist2 e := by
  unfold entDist2
  rcases not_and_or.mp h with hx | hy
  · have hne : e.target_x - e.display_x ≠ 0 := sub_ne_zero.mpr fun he => hx he.symm
    exact add_pos_of_pos_of_nonneg (mul_self_pos.mpr hne) (mul_self_nonneg _)
  · have hne : e.target_y - e.display_y ≠ 0 := sub_ne_zero.mpr fun he => hy he.symm
    exact add_pos_of_nonneg_of_pos (mul_self_nonneg _) (mul_self_pos.mpr hne)

lemma entDist_interpolate_lt {e : InterpolatedEntity}
    (h : ¬ (e.display_x = e.target_x ∧ e.display_y = e.target_y)) :
    entDist (e.interpolate (3/10)) < entDist e := by
  unfold entDist
  apply Real.sqrt_lt_sqrt
  · exact_mod_cast entDist2_nonneg _
  · have hpos := entDist2_pos h
    have hlt : entDist2 (e.interpolate (3/10)) < entDist2 e := by
      rw [entDist2_interpolate]
      nlinarith [hpos]
    exact_mod_cast hlt

lemma entDist_iterate13 (e : InterpolatedEntity) :
    entDist ((fun t => t.interpolate (3/10))^[13] e) ≤ entDist e / 100 := by
  unfold entDist
  rw [entDist2_iterate]
  have hcast : ((((49:ℚ)/100) ^ 13 * entDist2 e : ℚ) : ℝ) =
      (((49:ℝ)/100) ^ 13) * ((entDist2 e : ℚ) : ℝ) := by
    push_cast
    ring
  rw [hcast, Real.sqrt_mul (by positivity)]
  have h0 : ((49:ℝ)/100) ^ 13 = (((7:ℝ)/10) ^ 13) ^ 2 := by
    rw [show ((49:ℝ)/100) = ((7:ℝ)/10) ^ 2 by norm_num, ← pow_mul, ← pow_mul]
  have h1 : Real.sqrt (((49:ℝ)/100) ^ 13) = ((7:ℝ)/10) ^ 13 := by
    rw [h0]
    exact Real.sqrt_sq (by positivity)
  rw [h1]
  have h2 : ((7:ℝ)/10) ^ 13 ≤ 1/100 := by norm_num
  have h3 : (0:ℝ) ≤ Real.sqrt ((entDist2 e : ℚ) : ℝ) := Real.sqrt_nonneg _
  calc ((7:ℝ)/10) ^ 13 * Real.sqrt ((entDist2 e : ℚ) : ℝ)
      ≤ (1/100) * Real.sqrt ((entDist2 e : ℚ) : ℝ) := mul_le_mul_of_nonneg_right h2 h3
    _ = Real.sqrt ((entDist2 e : ℚ) : ℝ) / 100 := by ring

/-- C9.  The client interpolation step computes
display += (target − display) × α with α = 0.3 independently per axis and
leaves the target unchanged; when display differs from target, one step
strictly decreases the Euclidean distance between display and target (it
scales it by 0.7 exactly); and after 13 steps with a fixed target the
remaining distance is at most 1 percent of the initial distance, since
0.7 to the 13th is below 0.01. -/
theorem C9_interpolation :
    (∀ e : InterpolatedEntity,
       (e.interpolate (3/10)).display_x = e.display_x + (e.target_x - e.display_x) * (3/10) ∧
       (e.interpolate (3/10)).display_y = e.display_y + (e.target_y - e.display_y) * (3/10) ∧
       (e.interpolate (3/10)).target_x = e.target_x ∧
       (e.interpolate (3/10)).target_y = e.target_y) ∧
    (∀ e : InterpolatedEntity, ¬ (e.display_x = e.target_x ∧ e.display_y = e.target_y) →
       entDist (e.interpolate (3/10)) < entDist e) ∧
    (∀ e : InterpolatedEntity,
       entDist ((fun t => t.interpolate (3/10))^[13] e) ≤ entDist e / 100) :=
  ⟨fun _ => ⟨rfl, rfl, rfl, rfl⟩, fun _ h => entDist_interpolate_lt h, entDist_iterate13⟩

/-- C9, witness: for a concrete entity with display (0, 0) and target
(1, 0), one smoothing step strictly decreases the distance to the target. -/
theorem C9_interpolation_witness :
    entDist ((⟨"p", "P", 0, 0, 0, 0, 1, 0, 0, [255, 255, 255]⟩ :
        InterpolatedEntity).interpolate (3/10)) <
      entDist ⟨"p", "P", 0, 0, 0, 0, 1, 0, 0, [255, 255, 255]⟩ :=
  C9_interpolation.2.1 ⟨"p", "P", 0, 0, 0, 0, 1, 0, 0, [255, 255, 255]⟩ (by decide)

/-- C10.  The game-over reset changes exactly the started flag (to false),
the winner (to none), the coin set (to empty) and every player's score (to
0): the mode, the coin-id counter, the player-slot counter, and every
player's id, name, color, position and velocity are unchanged; and whenever
a started tick's simulation sets a winner, the tick's result is exactly the
reset applied to the mid-tick state. -/
theorem C10_reset_frame :
    (∀ t : GameServer,
       t.reset_game.game_started = false ∧ t.reset_game.winner = none ∧
       t.reset_game.coins = [] ∧ t.reset_game.game_mode = t.game_mode ∧
       t.reset_game.next_coin_id = t.next_coin_id ∧
       t.reset_game.player_count = t.player_count ∧
       List.Forall₂ (fun p q => q.id = p.id ∧ q.name = p.name ∧ q.color = p.color ∧
           q.x = p.x ∧ q.y = p.y ∧ q.velocity_x = p.velocity_x ∧
           q.velocity_y = p.velocity_y ∧ q.score = 0)
         t.players t.reset_game.players) ∧
    (∀ (t : GameServer) (sp : Bool) (posns : List (ℤ × ℤ)),
       t.game_started = true → (t.tick_mid sp posns).winner.isSome = true →
       t.tick sp posns = (t.tick_mid sp posns).reset_game) := by
  constructor
  · intro t
    refine ⟨rfl, rfl, rfl, rfl, rfl, rfl, ?_⟩
    exact forall₂_map_self (fun p => { p with score := 0 })
      (fun a => ⟨rfl, rfl, rfl, rfl, rfl, rfl, rfl, rfl⟩) t.players
  · intro t sp posns h1 h2
    rw [tick_started h1, if_pos h2]

/-- C10, witness: in the concrete started sprint session sWin the tick's
collision pass sets a winner and the tick result is exactly the reset of the
mid-tick state. -/
theorem C10_reset_frame_witness :
    sWin.tick false [] = (sWin.tick_mid false []).reset_game :=
  C10_reset_frame.2 sWin false [] rfl (by decide)

end CoinCollector
